import Mathlib

/-!
Verification development for the `@miconvert/image-watermark` library.

The TypeScript sources are embedded shallowly:
* numbers that the library manipulates (pixel sizes, paddings, offsets,
  spacings, scale factors) are modelled as rationals `ℚ`, except where the
  source calls `Math.sqrt`, which is modelled over the reals `ℝ`;
* `Math.floor` is `Int.floor`, `Math.round` is Mathlib's `round`
  (both agree with the JavaScript semantics on the values involved);
* text is modelled as its list of Unicode code points (`List ℕ`), matching
  the `for (const char of text)` code-point iteration of the source;
* optional parameters are `Option` values, and JavaScript truthiness tests
  on optional strings (`if (userFont)`, `if (!options.text)`) are modelled
  as "present and non-empty";
* the stateful `addWatermark` pipeline is modelled as a function returning
  an `Except` result together with the list of surface-lifecycle events it
  performed (canvas allocation, drawing, encoding, release), with the
  outcome of the external collaborators (DOM presence, image decode,
  2D-context acquisition, logo load, encode) supplied as boolean oracles.
-/

namespace Miconvert

/-! ### JavaScript string primitives

`String.prototype.startsWith` and `String.prototype.includes`, used by
`calculatePosition` in `src/lib/position.ts`. -/

/-- `takesLead pat s` is true when the character list `pat` is an initial
segment of `s` (the core of JavaScript `startsWith`). -/
def takesLead : List Char → List Char → Bool
  | [], _ => true
  | _ :: _, [] => false
  | a :: as, b :: bs => a == b && takesLead as bs

/-- `occursIn pat s` is true when `pat` occurs contiguously somewhere in
`s` (the core of JavaScript `includes`). -/
def occursIn (pat : List Char) : List Char → Bool
  | [] => takesLead pat []
  | b :: bs => takesLead pat (b :: bs) || occursIn pat bs

/-- JavaScript `s.includes(pat)`. -/
def strIncludes (s pat : String) : Bool := occursIn pat.data s.data

/-- JavaScript `s.startsWith(pat)`. -/
def strStartsWith (s pat : String) : Bool := takesLead pat.data s.data

/-! ### `src/lib/types.ts` — the nine anchor positions -/

/-- The `WatermarkPosition` string-literal union of `src/lib/types.ts`. -/
inductive WatermarkPosition
  | topLeft | topCenter | topRight
  | centerLeft | center | centerRight
  | bottomLeft | bottomCenter | bottomRight
deriving DecidableEq

/-- The string literal each `WatermarkPosition` constructor stands for. -/
def WatermarkPosition.str : WatermarkPosition → String
  | .topLeft => "top-left"
  | .topCenter => "top-center"
  | .topRight => "top-right"
  | .centerLeft => "center-left"
  | .center => "center"
  | .centerRight => "center-right"
  | .bottomLeft => "bottom-left"
  | .bottomCenter => "bottom-center"
  | .bottomRight => "bottom-right"

/-! ### `src/lib/position.ts` — `calculatePosition` -/

/-- Embedding of `calculatePosition` (src/lib/position.ts, lines 20–54).
The branch structure mirrors the source: horizontal rule via
`position.includes('left')` / `position.includes('right')`, vertical rule
via `position.startsWith('top')` / `position.startsWith('bottom')`, and
the offsets added unconditionally at the end. -/
def calculatePosition (canvasW canvasH wmW wmH : ℚ)
    (position : WatermarkPosition) (padding offsetX offsetY : ℚ) : ℚ × ℚ :=
  let x : ℚ :=
    if strIncludes position.str "left" then padding
    else if strIncludes position.str "right" then canvasW - wmW - padding
    else (canvasW - wmW) / 2
  let y : ℚ :=
    if strStartsWith position.str "top" then padding
    else if strStartsWith position.str "bottom" then canvasH - wmH - padding
    else (canvasH - wmH) / 2
  (x + offsetX, y + offsetY)

/-! ### `src/lib/utils.ts` — `getResponsiveMultiplier` -/

/-- Embedding of `getResponsiveMultiplier` (src/lib/utils.ts, lines
198–201): `if (scale === undefined || scale <= 0) return 1;
return (canvasWidth / 1920) * scale;`. -/
def getResponsiveMultiplier (canvasWidth : ℚ) (scale : Option ℚ) : ℚ :=
  match scale with
  | none => 1
  | some s => if s ≤ 0 then 1 else canvasWidth / 1920 * s

/-! ### Scaled font size (C10)

The same expression `Math.max(12, Math.round(fontSize * multiplier))`
appears in all three text renderers. JavaScript `Math.round x` is
`⌊x + 1/2⌋`, which is Mathlib's `round`. -/

/-- `scaledFontSize` of `drawTextWatermark` (src/lib/text-watermark.ts,
lines 53–54). -/
def drawTextWatermark_scaledFontSize (fontSize canvasWidth : ℚ)
    (scale : Option ℚ) : ℤ :=
  max 12 (round (fontSize * getResponsiveMultiplier canvasWidth scale))

/-- `scaledFontSize` of `drawTiledText` (src/unnamed/part_001, tiled
renderer, lines 50–51). -/
def drawTiledText_scaledFontSize (fontSize canvasWidth : ℚ)
    (scale : Option ℚ) : ℤ :=
  max 12 (round (fontSize * getResponsiveMultiplier canvasWidth scale))

/-- `scaledFontSize` of the multiline `drawTextWatermark` variant
(src/unnamed/part_003, lines 80–81). -/
def multilineTextWatermark_scaledFontSize (fontSize canvasWidth : ℚ)
    (scale : Option ℚ) : ℤ :=
  max 12 (round (fontSize * getResponsiveMultiplier canvasWidth scale))

/-! ### `src/lib/utils.ts` — `getSafeCanvasSize` -/

/-- Return record of `getSafeCanvasSize`:
`{ width, height, scaled }` (src/lib/utils.ts, line 23). -/
structure SafeSize where
  width : ℝ
  height : ℝ
  scaled : Bool

/-- The iOS-Safari canvas pixel-area ceiling `MAX_CANVAS_AREA = 16_777_216`
(src/lib/utils.ts, line 14). -/
def MAX_CANVAS_AREA : ℝ := 16777216

/-- Embedding of `getSafeCanvasSize` (src/lib/utils.ts, lines 20–34):
below the area ceiling the dimensions pass through unscaled; above it both
are multiplied by `Math.sqrt(MAX_CANVAS_AREA / area)` and floored. -/
noncomputable def getSafeCanvasSize (w h : ℝ) : SafeSize :=
  if w * h ≤ MAX_CANVAS_AREA then ⟨w, h, false⟩
  else
    let r := Real.sqrt (MAX_CANVAS_AREA / (w * h))
    ⟨(⌊w * r⌋ : ℤ), (⌊h * r⌋ : ℤ), true⟩

end Miconvert

namespace Miconvert

/-- C4: `calculatePosition` resolves each of the nine anchors to the
spec's closed horizontal/vertical formulas (left → padding, right →
`surfaceW − boxW − padding`, centre → midpoint, and the top/bottom/centre
analogue vertically), adds the offsets unconditionally with no clamping,
and on `(1000, 800, 100, 50, bottom-right, 20, 0, 0)` yields `(880, 730)`. -/
theorem calculatePosition_spec :
    (∀ cw ch ww wh pad ox oy : ℚ,
      calculatePosition cw ch ww wh .topLeft pad ox oy = (pad + ox, pad + oy) ∧
      calculatePosition cw ch ww wh .topCenter pad ox oy =
        ((cw - ww) / 2 + ox, pad + oy) ∧
      calculatePosition cw ch ww wh .topRight pad ox oy =
        (cw - ww - pad + ox, pad + oy) ∧
      calculatePosition cw ch ww wh .centerLeft pad ox oy =
        (pad + ox, (ch - wh) / 2 + oy) ∧
      calculatePosition cw ch ww wh .center pad ox oy =
        ((cw - ww) / 2 + ox, (ch - wh) / 2 + oy) ∧
      calculatePosition cw ch ww wh .centerRight pad ox oy =
        (cw - ww - pad + ox, (ch - wh) / 2 + oy) ∧
      calculatePosition cw ch ww wh .bottomLeft pad ox oy =
        (pad + ox, ch - wh - pad + oy) ∧
      calculatePosition cw ch ww wh .bottomCenter pad ox oy =
        ((cw - ww) / 2 + ox, ch - wh - pad + oy) ∧
      calculatePosition cw ch ww wh .bottomRight pad ox oy =
        (cw - ww - pad + ox, ch - wh - pad + oy)) ∧
    calculatePosition 1000 800 100 50 .bottomRight 20 0 0 = (880, 730) := by
  constructor
  · exact fun cw ch ww wh pad ox oy =>
      ⟨rfl, rfl, rfl, rfl, rfl, rfl, rfl, rfl, rfl⟩
  · have h : calculatePosition 1000 800 100 50 .bottomRight 20 0 0 =
        ((1000 : ℚ) - 100 - 20 + 0, (800 : ℚ) - 50 - 20 + 0) := rfl
    rw [h]; norm_num

/-- C7: `getResponsiveMultiplier` returns `1` when the scale is absent,
behaves as `if s ≤ 0 then 1 else w / 1920 * s` when it is present, and
satisfies the spec's worked examples `multiplier(1920, 1) = 1` and
`multiplier(3840, 1) = 2`. -/
theorem getResponsiveMultiplier_spec :
    (∀ w : ℚ, getResponsiveMultiplier w none = 1) ∧
    (∀ w s : ℚ, getResponsiveMultiplier w (some s) =
      if s ≤ 0 then 1 else w / 1920 * s) ∧
    getResponsiveMultiplier 1920 (some 1) = 1 ∧
    getResponsiveMultiplier 3840 (some 1) = 2 := by
  refine ⟨fun w => rfl, fun w s => rfl, by norm_num [getResponsiveMultiplier],
    by norm_num [getResponsiveMultiplier]⟩

/-- C10: in every text-rendering path — the single-shot renderer, the tiled
renderer, and the multiline single-shot variant — the effective font size
is `max 12 (round (fontSize * multiplier))`, hence it is never below 12
pixels however small the requested size or the responsive multiplier. -/
theorem scaledFontSize_floor12 :
    ∀ fontSize canvasWidth : ℚ, ∀ scale : Option ℚ,
      drawTextWatermark_scaledFontSize fontSize canvasWidth scale =
        max 12 (round (fontSize * getResponsiveMultiplier canvasWidth scale)) ∧
      drawTiledText_scaledFontSize fontSize canvasWidth scale =
        max 12 (round (fontSize * getResponsiveMultiplier canvasWidth scale)) ∧
      multilineTextWatermark_scaledFontSize fontSize canvasWidth scale =
        max 12 (round (fontSize * getResponsiveMultiplier canvasWidth scale)) ∧
      12 ≤ drawTextWatermark_scaledFontSize fontSize canvasWidth scale ∧
      12 ≤ drawTiledText_scaledFontSize fontSize canvasWidth scale ∧
      12 ≤ multilineTextWatermark_scaledFontSize fontSize canvasWidth scale := by
  intro fontSize canvasWidth scale
  exact ⟨rfl, rfl, rfl, le_max_left _ _, le_max_left _ _, le_max_left _ _⟩

end Miconvert

namespace Miconvert

/-- C3: `getSafeCanvasSize` returns the input dimensions unchanged with
`scaled = false` when `w × h ≤ 16,777,216`; otherwise it returns
`⌊w·r⌋, ⌊h·r⌋` with `r = √(16777216 / (w·h))` and `scaled = true`; and in
every case the product of the returned dimensions is at most 16,777,216. -/
theorem getSafeCanvasSize_spec (w h : ℝ) (hw : 0 < w) (hh : 0 < h) :
    (w * h ≤ 16777216 → getSafeCanvasSize w h = ⟨w, h, false⟩) ∧
    (16777216 < w * h →
      getSafeCanvasSize w h =
        ⟨((⌊w * Real.sqrt (16777216 / (w * h))⌋ : ℤ) : ℝ),
         ((⌊h * Real.sqrt (16777216 / (w * h))⌋ : ℤ) : ℝ), true⟩) ∧
    (getSafeCanvasSize w h).width * (getSafeCanvasSize w h).height ≤
      16777216 := by
  have hM : MAX_CANVAS_AREA = (16777216 : ℝ) := rfl
  by_cases hle : w * h ≤ 16777216
  · refine ⟨fun _ => ?_, fun hgt => absurd hle (not_le.mpr hgt), ?_⟩
    · rw [getSafeCanvasSize, hM, if_pos hle]
    · rw [getSafeCanvasSize, hM, if_pos hle]
      exact hle
  · have hgt : (16777216 : ℝ) < w * h := not_le.mp hle
    have hwh : 0 < w * h := mul_pos hw hh
    have heq : getSafeCanvasSize w h =
        ⟨((⌊w * Real.sqrt (16777216 / (w * h))⌋ : ℤ) : ℝ),
         ((⌊h * Real.sqrt (16777216 / (w * h))⌋ : ℤ) : ℝ), true⟩ := by
      rw [getSafeCanvasSize, hM, if_neg hle]
    refine ⟨fun hc => absurd hc hle, fun _ => heq, ?_⟩
    rw [heq]
    set r := Real.sqrt (16777216 / (w * h)) with hr
    have hdiv : (0 : ℝ) ≤ 16777216 / (w * h) :=
      le_of_lt (div_pos (by norm_num) hwh)
    have hrpos : 0 < r := Real.sqrt_pos.mpr (div_pos (by norm_num) hwh)
    have ha : 0 < w * r := mul_pos hw hrpos
    have hb : 0 < h * r := mul_pos hh hrpos
    have hbfl : (0 : ℝ) ≤ ((⌊h * r⌋ : ℤ) : ℝ) := by
      exact_mod_cast Int.floor_nonneg.mpr (le_of_lt hb)
    have hmul : ((⌊w * r⌋ : ℤ) : ℝ) * ((⌊h * r⌋ : ℤ) : ℝ) ≤ (w * r) * (h * r) :=
      mul_le_mul (Int.floor_le _) (Int.floor_le _) hbfl (le_of_lt ha)
    have hrr : r * r = 16777216 / (w * h) := Real.mul_self_sqrt hdiv
    have hab : (w * r) * (h * r) = 16777216 := by
      have : (w * r) * (h * r) = (w * h) * (r * r) := by ring
      rw [this, hrr, mul_div_cancel₀ _ (ne_of_gt hwh)]
    calc ((⌊w * r⌋ : ℤ) : ℝ) * ((⌊h * r⌋ : ℤ) : ℝ)
        ≤ (w * r) * (h * r) := hmul
      _ = 16777216 := hab

/-- C3 witness: the spec's worked example `safeSize(6000, 4000)` (a 24 MP
image exceeding the ceiling) instantiates `getSafeCanvasSize_spec`. -/
theorem getSafeCanvasSize_spec_witness :
    (0 : ℝ) < 6000 ∧ (0 : ℝ) < 4000 ∧
    (((6000 : ℝ) * 4000 ≤ 16777216 →
        getSafeCanvasSize 6000 4000 = ⟨6000, 4000, false⟩) ∧
      ((16777216 : ℝ) < 6000 * 4000 →
        getSafeCanvasSize 6000 4000 =
          ⟨((⌊(6000 : ℝ) * Real.sqrt (16777216 / (6000 * 4000))⌋ : ℤ) : ℝ),
           ((⌊(4000 : ℝ) * Real.sqrt (16777216 / (6000 * 4000))⌋ : ℤ) : ℝ),
           true⟩) ∧
      (getSafeCanvasSize 6000 4000).width *
          (getSafeCanvasSize 6000 4000).height ≤ 16777216) :=
  ⟨by norm_num, by norm_num,
    getSafeCanvasSize_spec 6000 4000 (by norm_num) (by norm_num)⟩

end Miconvert

namespace Miconvert

/-! ### `src/lib/font-loader.ts` — script detection

Text is modelled as its list of Unicode code points, matching the
`for (const char of text)` code-point iteration of `detectScript`. -/

/-- The `ScriptInfo` interface (src/lib/font-loader.ts, lines 17–21). -/
structure ScriptInfo where
  script : String
  googleFont : String
  fallbackStack : String
deriving DecidableEq

/-- One entry of the `SCRIPT_FONTS` table (src/lib/font-loader.ts,
line 27). -/
structure ScriptEntry where
  ranges : List (ℕ × ℕ)
  script : String
  googleFont : String
  fallbackStack : String
deriving DecidableEq

/-- The static `SCRIPT_FONTS` table (src/lib/font-loader.ts, lines
27–105), in declaration order. -/
def SCRIPT_FONTS : List ScriptEntry := [
  ⟨[(0x4E00, 0x9FFF), (0x3400, 0x4DBF), (0x3000, 0x303F), (0xF900, 0xFAFF)],
    "cjk-sc", "Noto Sans SC",
    "\"Noto Sans SC\", \"Microsoft YaHei\", \"PingFang SC\", \"SimHei\", sans-serif"⟩,
  ⟨[(0x3040, 0x309F), (0x30A0, 0x30FF), (0x31F0, 0x31FF)],
    "japanese", "Noto Sans JP",
    "\"Noto Sans JP\", \"Yu Gothic\", \"Hiragino Sans\", \"Meiryo\", sans-serif"⟩,
  ⟨[(0xAC00, 0xD7AF), (0x1100, 0x11FF), (0x3130, 0x318F)],
    "korean", "Noto Sans KR",
    "\"Noto Sans KR\", \"Malgun Gothic\", \"Apple SD Gothic Neo\", sans-serif"⟩,
  ⟨[(0x0600, 0x06FF), (0x0750, 0x077F), (0xFB50, 0xFDFF), (0xFE70, 0xFEFF)],
    "arabic", "Noto Sans Arabic",
    "\"Noto Sans Arabic\", \"Segoe UI\", \"Tahoma\", sans-serif"⟩,
  ⟨[(0x0900, 0x097F), (0xA8E0, 0xA8FF)],
    "devanagari", "Noto Sans Devanagari",
    "\"Noto Sans Devanagari\", \"Mangal\", sans-serif"⟩,
  ⟨[(0x0980, 0x09FF)],
    "bengali", "Noto Sans Bengali", "\"Noto Sans Bengali\", sans-serif"⟩,
  ⟨[(0x0E00, 0x0E7F)],
    "thai", "Noto Sans Thai",
    "\"Noto Sans Thai\", \"Leelawadee UI\", \"Tahoma\", sans-serif"⟩,
  ⟨[(0x1EA0, 0x1EF9), (0x01A0, 0x01B4), (0x0300, 0x036F)],
    "vietnamese", "Noto Sans",
    "\"Noto Sans\", \"Segoe UI\", Arial, sans-serif"⟩,
  ⟨[(0x0400, 0x04FF), (0x0500, 0x052F)],
    "cyrillic", "Noto Sans",
    "\"Noto Sans\", \"Segoe UI\", Arial, sans-serif"⟩,
  ⟨[(0x0590, 0x05FF), (0xFB1D, 0xFB4F)],
    "hebrew", "Noto Sans Hebrew",
    "\"Noto Sans Hebrew\", \"Segoe UI\", \"Arial Hebrew\", sans-serif"⟩,
  ⟨[(0x0B80, 0x0BFF)],
    "tamil", "Noto Sans Tamil", "\"Noto Sans Tamil\", sans-serif"⟩]

/-- `counts.set(script, (counts.get(script) || 0) + 1)` on a JavaScript
`Map` modelled as an insertion-ordered association list: an existing key
keeps its position, a new key is appended at the end. -/
def bumpCount : List (String × ℕ) → String → List (String × ℕ)
  | [], s => [(s, 1)]
  | (k, v) :: rest, s =>
    if k == s then (k, v + 1) :: rest else (k, v) :: bumpCount rest s

/-- Whether a code point falls in one of an entry's inclusive ranges (the
inner `for (const [start, end] of entry.ranges)` loop with its `break`). -/
def matchesEntry (code : ℕ) (e : ScriptEntry) : Bool :=
  e.ranges.any (fun r => decide (r.1 ≤ code) && decide (code ≤ r.2))

/-- Processing of one code point of the text: the `for (const entry of
SCRIPT_FONTS)` loop of `detectScript` (the `break` in the source only
leaves the inner ranges loop, so every matching entry is tallied). -/
def tallyCode (counts : List (String × ℕ)) (code : ℕ) : List (String × ℕ) :=
  SCRIPT_FONTS.foldl
    (fun c e => if matchesEntry code e then bumpCount c e.script else c) counts

/-- The per-script tally `counts` built by `detectScript` over the whole
text (src/lib/font-loader.ts, lines 113–127). -/
def tallyText (codes : List ℕ) : List (String × ℕ) :=
  codes.foldl tallyCode []

/-- The `maxScript`/`maxCount` scan of `detectScript` (src/lib/font-loader.ts,
lines 129–137): fold over the tally map in insertion order, replacing the
running best only on a strictly greater count, starting from `("", 0)`. -/
def scanBest (counts : List (String × ℕ)) (best : String × ℕ) : String × ℕ :=
  counts.foldl (fun b kv => if b.2 < kv.2 then kv else b) best

/-- The Latin default `ScriptInfo` (src/lib/font-loader.ts, lines 149–153). -/
def latinFallback : ScriptInfo :=
  ⟨"latin", "Noto Sans", "\"Noto Sans\", Arial, Helvetica, sans-serif"⟩

/-- The `SCRIPT_FONTS.find(e => e.script === maxScript)!` lookup
(src/lib/font-loader.ts, line 140). The `none` branch is unreachable when
the argument is a script of the table; it is totalised with the Latin
default. -/
def infoOfScript (s : String) : ScriptInfo :=
  match SCRIPT_FONTS.find? (fun e => e.script == s) with
  | some e => ⟨e.script, e.googleFont, e.fallbackStack⟩
  | none => latinFallback

/-- Embedding of `detectScript` (src/lib/font-loader.ts, lines 111–154)
over the text's code points. -/
def detectScript (codes : List ℕ) : ScriptInfo :=
  let m := scanBest (tallyText codes) ("", 0)
  if m.1 == "" then latinFallback else infoOfScript m.1

/-- `detectScript` applied to an actual string, iterated by code point. -/
def detectScriptStr (text : String) : ScriptInfo :=
  detectScript (text.data.map Char.toNat)

/-- JavaScript `s.endsWith(pat)` (used to state that the Latin fallback
stack ends in a generic `sans-serif`). -/
def strEndsWith (s pat : String) : Bool :=
  takesLead pat.data.reverse s.data.reverse

/-! ### `src/lib/font-loader.ts` — font loading and resolution

`loadGoogleFont` performs a network fetch and a `FontFace` registration;
both can fail. Its entire body after the cache check is wrapped in
`try ... catch` whose handler only calls `console.warn`, so the function
never throws; success is modelled by the boolean oracle `installOk`. The
`loadedFonts` cache (a `Set<string>` keyed by `family:weight`) is modelled
as a list of keys; the function returns the updated cache. -/

/-- Embedding of `loadGoogleFont` (src/lib/font-loader.ts, lines 169–214):
cache hit returns immediately; otherwise the install either succeeds and
records the `family:weight` key, or fails and is absorbed with a warning. -/
def loadGoogleFont (installOk : Bool) (loadedFonts : List String)
    (fontFamily weight : String) : List String :=
  let cacheKey := fontFamily ++ ":" ++ weight
  if loadedFonts.contains cacheKey then loadedFonts
  else if installOk then cacheKey :: loadedFonts
  else loadedFonts

/-- Embedding of `ensureFontForText` (src/lib/font-loader.ts, lines
258–274): detect the script, try to install its preferred Google font
(outcome `installOk`), then return the fallback stack, with the user font
prepended when it is truthy (non-empty) and differs from the preferred
family — `if (userFont && userFont !== scriptInfo.googleFont)`. -/
def ensureFontForText (installOk : Bool) (loadedFonts : List String)
    (codes : List ℕ) (userFont : Option String) (fontWeight : String) :
    String × List String :=
  let scriptInfo := detectScript codes
  let fonts2 := loadGoogleFont installOk loadedFonts scriptInfo.googleFont fontWeight
  match userFont with
  | some uf =>
    if uf != "" && uf != scriptInfo.googleFont then
      (uf ++ ", " ++ scriptInfo.fallbackStack, fonts2)
    else (scriptInfo.fallbackStack, fonts2)
  | none => (scriptInfo.fallbackStack, fonts2)

end Miconvert

namespace Miconvert

/-! ### C6 — the tie-break rule of `detectScript` -/

/-- Maximum tally occurring in a counts map (spec-side helper used to
state the tie-break rule). -/
def listMax : List (String × ℕ) → ℕ
  | [] => 0
  | kv :: rest => max kv.2 (listMax rest)

/-- The tie-break rule the C6 claim asserts, formalised from the claim's
words: among the scripts attaining the maximum tally, the one earliest in
the `SCRIPT_FONTS` declaration order wins. -/
def tableOrderDetect (codes : List ℕ) : ScriptInfo :=
  let counts := tallyText codes
  let M := listMax counts
  if M == 0 then latinFallback
  else
    match SCRIPT_FONTS.find?
        (fun e => ((counts.lookup e.script).getD 0) == M) with
    | some e => ⟨e.script, e.googleFont, e.fallbackStack⟩
    | none => latinFallback

lemma bumpCount_val_pos (l : List (String × ℕ)) (s : String)
    (h : ∀ kv ∈ l, 1 ≤ kv.2) : ∀ kv ∈ bumpCount l s, 1 ≤ kv.2 := by
  induction l with
  | nil =>
    intro kv hkv
    simp only [bumpCount, List.mem_singleton] at hkv
    simp [hkv]
  | cons hd rest ih =>
    intro kv hkv
    obtain ⟨k, v⟩ := hd
    by_cases hk : (k == s) = true
    · simp only [bumpCount, if_pos hk, List.mem_cons] at hkv
      rcases hkv with hkv | hkv
      · simp [hkv]
      · exact h kv (List.mem_cons_of_mem _ hkv)
    · simp only [bumpCount, if_neg hk, List.mem_cons] at hkv
      rcases hkv with hkv | hkv
      · exact hkv ▸ h (k, v) (List.mem_cons_self _ _)
      · exact ih (fun x hx => h x (List.mem_cons_of_mem _ hx)) kv hkv

lemma foldl_entries_val_pos (es : List ScriptEntry) (code : ℕ) :
    ∀ c : List (String × ℕ), (∀ kv ∈ c, 1 ≤ kv.2) →
    ∀ kv ∈ es.foldl
      (fun c e => if matchesEntry code e then bumpCount c e.script else c) c,
      1 ≤ kv.2 := by
  induction es with
  | nil => intro c hc; simpa using hc
  | cons e es ih =>
    intro c hc
    simp only [List.foldl_cons]
    apply ih
    by_cases hm : matchesEntry code e = true
    · rw [if_pos hm]; exact bumpCount_val_pos c e.script hc
    · rw [if_neg hm]; exact hc

lemma tallyText_val_pos (codes : List ℕ) :
    ∀ kv ∈ tallyText codes, 1 ≤ kv.2 := by
  suffices h : ∀ c : List (String × ℕ), (∀ kv ∈ c, 1 ≤ kv.2) →
      ∀ kv ∈ codes.foldl tallyCode c, 1 ≤ kv.2 from h [] (by simp)
  induction codes with
  | nil => intro c hc; simpa using hc
  | cons a cs ih =>
    intro c hc
    simp only [List.foldl_cons]
    exact ih _ (foldl_entries_val_pos SCRIPT_FONTS a c hc)

lemma bumpCount_keys (l : List (String × ℕ)) (s : String) :
    ∀ kv ∈ bumpCount l s, kv.1 = s ∨ kv.1 ∈ l.map Prod.fst := by
  induction l with
  | nil =>
    intro kv hkv
    simp only [bumpCount, List.mem_singleton] at hkv
    simp [hkv]
  | cons hd rest ih =>
    intro kv hkv
    obtain ⟨k, v⟩ := hd
    by_cases hk : (k == s) = true
    · simp only [bumpCount, if_pos hk, List.mem_cons] at hkv
      rcases hkv with hkv | hkv
      · simp [hkv]
      · right; simp only [List.map_cons, List.mem_cons]; right
        exact List.mem_map_of_mem Prod.fst hkv
    · simp only [bumpCount, if_neg hk, List.mem_cons] at hkv
      rcases hkv with hkv | hkv
      · right; simp [hkv]
      · rcases ih kv hkv with h | h
        · exact Or.inl h
        · right; simp only [List.map_cons, List.mem_cons]; exact Or.inr h

lemma foldl_entries_keys (es : List ScriptEntry)
    (hes : ∀ e ∈ es, e.script ∈ SCRIPT_FONTS.map ScriptEntry.script)
    (code : ℕ) :
    ∀ c : List (String × ℕ),
      (∀ kv ∈ c, kv.1 ∈ SCRIPT_FONTS.map ScriptEntry.script) →
    ∀ kv ∈ es.foldl
      (fun c e => if matchesEntry code e then bumpCount c e.script else c) c,
      kv.1 ∈ SCRIPT_FONTS.map ScriptEntry.script := by
  induction es with
  | nil => intro c hc; simpa using hc
  | cons e es ih =>
    intro c hc
    simp only [List.foldl_cons]
    apply ih (fun x hx => hes x (List.mem_cons_of_mem _ hx))
    by_cases hm : matchesEntry code e = true
    · rw [if_pos hm]
      intro kv hkv
      rcases bumpCount_keys c e.script kv hkv with h | h
      · exact h ▸ hes e (List.mem_cons_self _ _)
      · obtain ⟨x, hx, hx1⟩ := List.mem_map.mp h
        exact hx1 ▸ hc x hx
    · rw [if_neg hm]; exact hc

lemma tallyText_keys (codes : List ℕ) :
    ∀ kv ∈ tallyText codes, kv.1 ∈ SCRIPT_FONTS.map ScriptEntry.script := by
  suffices h : ∀ c : List (String × ℕ),
      (∀ kv ∈ c, kv.1 ∈ SCRIPT_FONTS.map ScriptEntry.script) →
      ∀ kv ∈ codes.foldl tallyCode c,
        kv.1 ∈ SCRIPT_FONTS.map ScriptEntry.script from h [] (by simp)
  induction codes with
  | nil => intro c hc; simpa using hc
  | cons a cs ih =>
    intro c hc
    simp only [List.foldl_cons]
    exact ih _ (foldl_entries_keys SCRIPT_FONTS
      (fun e he => List.mem_map_of_mem ScriptEntry.script he) a c hc)

lemma scanBest_of_ge (l : List (String × ℕ)) :
    ∀ b : String × ℕ, listMax l ≤ b.2 → scanBest l b = b := by
  induction l with
  | nil => intro b _; rfl
  | cons kv rest ih =>
    intro b hb
    have h1 : kv.2 ≤ b.2 := le_trans (le_max_left _ _) hb
    have h2 : listMax rest ≤ b.2 := le_trans (le_max_right _ _) hb
    simp only [scanBest, List.foldl_cons]
    rw [if_neg (not_lt.mpr h1)]
    exact ih b h2

lemma scanBest_of_lt (l : List (String × ℕ)) :
    ∀ b kv₀ : String × ℕ, b.2 < listMax l →
    l.find? (fun x => x.2 == listMax l) = some kv₀ →
    scanBest l b = kv₀ := by
  induction l with
  | nil =>
    intro b kv₀ hb _
    exact absurd hb (by simp [listMax])
  | cons kv rest ih =>
    intro b kv₀ hb hf
    by_cases hk : listMax rest ≤ kv.2
    · have hM : listMax (kv :: rest) = kv.2 := max_eq_left hk
      have hpred : ((fun x : String × ℕ => x.2 == listMax (kv :: rest)) kv)
          = true := by simp [hM]
      rw [@List.find?_cons_of_pos _
        (fun x : String × ℕ => x.2 == listMax (kv :: rest)) kv rest hpred] at hf
      have hkv : kv = kv₀ := by injection hf
      subst hkv
      have hbk : b.2 < kv.2 := hM ▸ hb
      simp only [scanBest, List.foldl_cons]
      rw [if_pos hbk]
      exact scanBest_of_ge rest kv hk
    · push_neg at hk
      have hM : listMax (kv :: rest) = listMax rest :=
        max_eq_right (le_of_lt hk)
      have hpred : ¬ (((fun x : String × ℕ => x.2 == listMax (kv :: rest)) kv)
          = true) := by simp [hM]; exact ne_of_lt hk
      rw [@List.find?_cons_of_neg _
        (fun x : String × ℕ => x.2 == listMax (kv :: rest)) kv rest hpred,
        hM] at hf
      simp only [scanBest, List.foldl_cons]
      by_cases hbk : b.2 < kv.2
      · rw [if_pos hbk]; exact ih kv kv₀ hk hf
      · rw [if_neg hbk]; exact ih b kv₀ (hM ▸ hb) hf

end Miconvert

namespace Miconvert

/-- C6 counterexample: on the two-code-point text `"あ中"` (Hiragana あ
U+3042 followed by CJK 中 U+4E2D) the scripts `cjk-sc` and `japanese` tie
at one match each, yet `detectScript` returns the Japanese `ScriptInfo`,
not that of `cjk-sc`, which comes first in the table declaration order —
the tally map is iterated in insertion order (order of first appearance in
the text), not in table order. -/
theorem detectScript_tableOrder_cex :
    (tallyText [0x3042, 0x4E2D]).lookup "cjk-sc" = some 1 ∧
    (tallyText [0x3042, 0x4E2D]).lookup "japanese" = some 1 ∧
    listMax (tallyText [0x3042, 0x4E2D]) = 1 ∧
    (tableOrderDetect [0x3042, 0x4E2D]).script = "cjk-sc" ∧
    (detectScript [0x3042, 0x4E2D]).script = "japanese" ∧
    tableOrderDetect [0x3042, 0x4E2D] ≠ detectScript [0x3042, 0x4E2D] ∧
    detectScriptStr "あ中" = detectScript [0x3042, 0x4E2D] := by decide

/-- C6 amended: `detectScript` is deterministic about ties, but the
winner is the first entry of the tally map — in insertion order, i.e. the
script whose first matching code point appears earliest in the text —
whose tally equals the maximum tally, not the first such script in table
declaration order. -/
theorem detectScript_tie_insertion_order (codes : List ℕ) (kv : String × ℕ)
    (hfind : (tallyText codes).find?
      (fun x => x.2 == listMax (tallyText codes)) = some kv) :
    detectScript codes = infoOfScript kv.1 := by
  have hmem : kv ∈ tallyText codes := List.mem_of_find?_eq_some hfind
  have hpos : 1 ≤ kv.2 := tallyText_val_pos codes kv hmem
  have hbeq : (kv.2 == listMax (tallyText codes)) = true :=
    @List.find?_some _ (fun x : String × ℕ => x.2 == listMax (tallyText codes))
      kv (tallyText codes) hfind
  have hmax : kv.2 = listMax (tallyText codes) := by
    simpa using hbeq
  have hlt : (0 : ℕ) < listMax (tallyText codes) :=
    lt_of_lt_of_le Nat.zero_lt_one (hmax ▸ hpos)
  have hscan : scanBest (tallyText codes) ("", 0) = kv :=
    scanBest_of_lt (tallyText codes) ("", 0) kv hlt hfind
  have hkey : kv.1 ∈ SCRIPT_FONTS.map ScriptEntry.script :=
    tallyText_keys codes kv hmem
  have hne : (kv.1 == "") = false := by
    have hall : ∀ s ∈ SCRIPT_FONTS.map ScriptEntry.script,
        (s == "") = false := by decide
    exact hall kv.1 hkey
  simp only [detectScript, hscan, hne]
  simp

/-- C6 witness: the amended tie-break theorem instantiated on the tied
text `"あ中"`, where the Japanese script is first in tally-insertion
order. -/
theorem detectScript_tie_insertion_order_witness :
    ((tallyText [0x3042, 0x4E2D]).find?
        (fun x => x.2 == listMax (tallyText [0x3042, 0x4E2D])) =
      some ("japanese", 1)) ∧
    detectScript [0x3042, 0x4E2D] = infoOfScript "japanese" :=
  ⟨by decide,
    detectScript_tie_insertion_order [0x3042, 0x4E2D] ("japanese", 1)
      (by decide)⟩

end Miconvert

namespace Miconvert

/-! ### C9 — totality of the classifier and the Latin default -/

lemma foldl_entries_no_match (code : ℕ) :
    ∀ es : List ScriptEntry, (∀ e ∈ es, matchesEntry code e = false) →
    ∀ c : List (String × ℕ),
      es.foldl (fun c e => if matchesEntry code e then bumpCount c e.script
        else c) c = c := by
  intro es
  induction es with
  | nil => intro _ c; rfl
  | cons e es ih =>
    intro h c
    simp only [List.foldl_cons]
    rw [if_neg (by simp [h e (List.mem_cons_self _ _)])]
    exact ih (fun x hx => h x (List.mem_cons_of_mem _ hx)) c

lemma tallyText_of_no_match (codes : List ℕ)
    (h : ∀ c ∈ codes, ∀ e ∈ SCRIPT_FONTS, matchesEntry c e = false) :
    tallyText codes = [] := by
  suffices hgen : ∀ acc : List (String × ℕ), codes.foldl tallyCode acc = acc
    from hgen []
  intro acc
  induction codes generalizing acc with
  | nil => rfl
  | cons a cs ih =>
    simp only [List.foldl_cons]
    rw [show tallyCode acc a = acc from
      foldl_entries_no_match a SCRIPT_FONTS (h a (List.mem_cons_self _ _)) acc]
    exact ih (fun c hc => h c (List.mem_cons_of_mem _ hc)) acc

lemma matchesEntry_latin (c : ℕ) (hc : c ≤ 0x7F) :
    ∀ e ∈ SCRIPT_FONTS, matchesEntry c e = false := by
  have htab : ∀ e ∈ SCRIPT_FONTS, ∀ r ∈ e.ranges, 0x7F < r.1 := by decide
  intro e he
  unfold matchesEntry
  rw [List.any_eq_false]
  intro r hr
  have hlow := htab e he r hr
  simp only [Bool.and_eq_true, decide_eq_true_eq, not_and]
  intro h1 _
  omega

/-- C9: `detectScript` has no error path — it is total by construction —
and returns the Latin default `ScriptInfo` on the empty text, on any text
none of whose code points matches a table entry, and in particular on any
text of Basic Latin code points (both as a code-point list and as an
actual Lean string, which is iterated by code point exactly as
`for (const char of text)` is); the Latin default is tagged `"latin"` and
its fallback stack ends in the generic `sans-serif`. -/
theorem detectScript_total_latin :
    detectScript [] = latinFallback ∧
    (∀ codes : List ℕ,
      (∀ c ∈ codes, ∀ e ∈ SCRIPT_FONTS, matchesEntry c e = false) →
      detectScript codes = latinFallback) ∧
    (∀ codes : List ℕ, (∀ c ∈ codes, c ≤ 0x7F) →
      detectScript codes = latinFallback) ∧
    (∀ text : String, (∀ ch ∈ text.data, ch.toNat ≤ 0x7F) →
      detectScriptStr text = latinFallback) ∧
    latinFallback.script = "latin" ∧
    strEndsWith latinFallback.fallbackStack "sans-serif" = true := by
  have hnm : ∀ codes : List ℕ,
      (∀ c ∈ codes, ∀ e ∈ SCRIPT_FONTS, matchesEntry c e = false) →
      detectScript codes = latinFallback := by
    intro codes h
    unfold detectScript
    rw [tallyText_of_no_match codes h]
    rfl
  have hlat : ∀ codes : List ℕ, (∀ c ∈ codes, c ≤ 0x7F) →
      detectScript codes = latinFallback :=
    fun codes h => hnm codes (fun c hc => matchesEntry_latin c (h c hc))
  refine ⟨by decide, hnm, hlat, ?_, rfl, by decide⟩
  intro text h
  apply hlat
  intro c hc
  obtain ⟨ch, hch, rfl⟩ := List.mem_map.mp hc
  exact h ch hch

/-- C9 witness: `detectScript_total_latin` applied to the Basic Latin
string `"Hello"`. -/
theorem detectScript_total_latin_witness :
    detectScriptStr "Hello" = latinFallback :=
  detectScript_total_latin.2.2.2.1 "Hello" (by decide)

/-! ### C8 — `ensureFontForText` never fails and ignores install outcome -/

/-- Font value the amended C8 claim asserts: the detected script's
fallback stack, with the user font prepended exactly when it is supplied,
non-empty, and different from the script's preferred Google font. -/
def amendedFontValue (codes : List ℕ) (userFont : Option String) : String :=
  let si := detectScript codes
  match userFont with
  | some uf =>
    if uf ≠ "" ∧ uf ≠ si.googleFont then uf ++ ", " ++ si.fallbackStack
    else si.fallbackStack
  | none => si.fallbackStack

/-- Font value the original C8 claim asserts, from its words: the user
font is prepended exactly when it is supplied and differs from the
script's preferred family (no non-emptiness requirement). -/
def claimedFontValue (codes : List ℕ) (userFont : Option String) : String :=
  let si := detectScript codes
  match userFont with
  | some uf =>
    if uf ≠ si.googleFont then uf ++ ", " ++ si.fallbackStack
    else si.fallbackStack
  | none => si.fallbackStack

/-- C8 counterexample: with the empty string supplied as the user font —
supplied, and different from the preferred family `"Noto Sans"` — the
claim predicts prepending, but `ensureFontForText`'s truthiness test
`if (userFont && ...)` treats it as absent and returns the bare fallback
stack, whatever the install outcome. -/
theorem ensureFontForText_cex :
    (ensureFontForText true [] [72] (some "") "700").1 ≠
      claimedFontValue [72] (some "") ∧
    (ensureFontForText false [] [72] (some "") "700").1 ≠
      claimedFontValue [72] (some "") ∧
    (ensureFontForText true [] [72] (some "") "700").1 =
      latinFallback.fallbackStack ∧
    claimedFontValue [72] (some "") = ", " ++ latinFallback.fallbackStack := by
  decide

/-- C8 amended: `ensureFontForText` is total (install failure is absorbed
after a warning), its returned font value does not depend on whether the
install succeeded, and it equals the detected script's fallback stack with
the user font prepended exactly when the user font is supplied, non-empty,
and different from the script's preferred family. -/
theorem ensureFontForText_spec (installOk : Bool) (loadedFonts : List String)
    (codes : List ℕ) (userFont : Option String) (fontWeight : String) :
    (ensureFontForText installOk loadedFonts codes userFont fontWeight).1 =
      amendedFontValue codes userFont ∧
    (ensureFontForText installOk loadedFonts codes userFont fontWeight).1 =
      (ensureFontForText true loadedFonts codes userFont fontWeight).1 := by
  have key : ∀ ok : Bool,
      (ensureFontForText ok loadedFonts codes userFont fontWeight).1 =
        amendedFontValue codes userFont := by
    intro ok
    cases userFont with
    | none => rfl
    | some uf =>
      simp only [ensureFontForText, amendedFontValue]
      by_cases h1 : uf = ""
      · subst h1; simp
      · by_cases h2 : uf = (detectScript codes).googleFont
        · simp [h1, h2]
        · simp [h1, h2]
  exact ⟨key installOk, (key installOk).trans (key true).symm⟩

end Miconvert

namespace Miconvert

/-! ### `src/lib/index.ts` — the `addWatermark` pipeline

The pipeline is modelled as a pure function from the validated inputs and
a record of collaborator outcomes (boolean oracles) to an `Except` result
paired with the ordered list of surface-lifecycle events it performed.
The event of interest for the claims is the order of canvas allocation
(inside `fileToCanvas`, which runs before any option validation), drawing,
the encode attempt (`canvasToBlob`), and the `releaseCanvas` call. -/

/-- Surface-lifecycle events of one `addWatermark` call, in program
order. -/
inductive WMEvent
  | canvasAlloc
  | drawOp
  | encodeAttempt
  | canvasRelease
deriving DecidableEq

/-- The distinct `throw new Error(...)` sites of the pipeline
(src/lib/index.ts and src/lib/utils.ts). -/
inductive WMError
  | noSource
  | notBlob
  | envError
  | decodeError
  | noContext
  | missingText
  | missingImageSource
  | invalidType
  | assetLoadError
  | exportFailure
deriving DecidableEq

/-- The options fields the pipeline's control flow inspects. `type` is an
arbitrary string (the source compares it against `'text'` and `'image'`
and rejects anything else); the optional string fields are tested with
JavaScript truthiness. -/
structure WMOptions where
  type : String
  mode : Option String
  text : Option String
  source : Option String
  imageElement : Bool
deriving DecidableEq

/-- Outcomes of the pipeline's external collaborators, as boolean
oracles: DOM presence (SSR guard), source-image decode, the
`getContext('2d')` call, the logo load inside the image renderers, and
the `canvas.toBlob` encode. -/
structure HostEnv where
  hasDocument : Bool
  decodeOk : Bool
  contextOk : Bool
  logoLoadOk : Bool
  encodeOk : Bool
deriving DecidableEq

/-- The `file` argument: `null`/`undefined`, a non-Blob value, or a
proper `File`/`Blob`. -/
inductive FileInput
  | nullFile
  | nonBlobFile
  | blobFile
deriving DecidableEq

/-- JavaScript truthiness of an optional string (`undefined` and `""` are
falsy). -/
def optTruthy : Option String → Bool
  | none => false
  | some s => s != ""

/-- Tail of the pipeline from the encode step (src/lib/index.ts, lines
114–120): `canvasToBlob`, then — only if it succeeded — `releaseCanvas`.
There is no try/finally around the encode. -/
def finishEncode (env : HostEnv) (tr : List WMEvent) :
    Except WMError Unit × List WMEvent :=
  let tr1 := tr ++ [WMEvent.encodeAttempt]
  if env.encodeOk then (.ok (), tr1 ++ [WMEvent.canvasRelease])
  else (.error .exportFailure, tr1)

/-- Embedding of `addWatermark` (src/lib/index.ts, lines 53–121). The
guard order mirrors the source: null check, Blob check, SSR guard, then
`fileToCanvas` (decode, then canvas allocation), `getContext`, then the
per-type option validation, drawing, encode, release. -/
def addWatermark (file : FileInput) (opts : WMOptions) (env : HostEnv) :
    Except WMError Unit × List WMEvent :=
  if file = FileInput.nullFile then (.error .noSource, [])
  else if file = FileInput.nonBlobFile then (.error .notBlob, [])
  else if !env.hasDocument then (.error .envError, [])
  else if !env.decodeOk then (.error .decodeError, [])
  else
    let tr0 : List WMEvent := [WMEvent.canvasAlloc]
    if !env.contextOk then (.error .noContext, tr0)
    else if opts.type == "text" then
      if !(optTruthy opts.text) then (.error .missingText, tr0)
      else finishEncode env (tr0 ++ [WMEvent.drawOp])
    else if opts.type == "image" then
      if !(optTruthy opts.source || opts.imageElement) then
        (.error .missingImageSource, tr0)
      else if !env.logoLoadOk then (.error .assetLoadError, tr0)
      else finishEncode env (tr0 ++ [WMEvent.drawOp])
    else (.error .invalidType, tr0)

/-- The `ConfigurationError` kinds of the error taxonomy raised by
`addWatermark`'s option validation. -/
def isConfigError : WMError → Bool
  | .missingText => true
  | .missingImageSource => true
  | .invalidType => true
  | _ => false

/-- Options that fail `addWatermark`'s validation: invalid type enum,
missing (falsy) text for text mode, missing source and element for image
mode. -/
def configInvalid (opts : WMOptions) : Bool :=
  (opts.type != "text" && opts.type != "image") ||
  (opts.type == "text" && !(optTruthy opts.text)) ||
  (opts.type == "image" && !(optTruthy opts.source || opts.imageElement))

/-- Inputs on which the pipeline reaches the encode step: a proper Blob,
a working environment, and a draw branch that succeeds. -/
def reachesEncode (file : FileInput) (opts : WMOptions) (env : HostEnv) :
    Bool :=
  file == FileInput.blobFile && env.hasDocument && env.decodeOk &&
    env.contextOk &&
    ((opts.type == "text" && optTruthy opts.text) ||
     (opts.type == "image" && (optTruthy opts.source || opts.imageElement) &&
       env.logoLoadOk))

end Miconvert

namespace Miconvert

/-- C1 counterexample: with a proper Blob and a healthy environment, the
invalid watermark type `"video"` is rejected with the ConfigurationError
only after `fileToCanvas` has allocated the working canvas — the
allocation event is already in the trace when the error is thrown, so the
rejection does not happen before drawing-surface allocation. -/
theorem addWatermark_alloc_before_validation_cex :
    (addWatermark .blobFile ⟨"video", none, none, none, false⟩
        ⟨true, true, true, true, true⟩).1 = .error .invalidType ∧
    (addWatermark .blobFile ⟨"video", none, none, none, false⟩
        ⟨true, true, true, true, true⟩).2 = [WMEvent.canvasAlloc] ∧
    WMEvent.canvasAlloc ∈
      (addWatermark .blobFile ⟨"video", none, none, none, false⟩
        ⟨true, true, true, true, true⟩).2 :=
  ⟨rfl, rfl, by decide⟩

/-- C1 amended: whenever the options fail validation (invalid type enum,
falsy text for text mode, missing source and element for image mode) and
the pipeline gets that far (DOM present, decode and context fine), a
ConfigurationError is raised before any drawing, encoding or release —
but after the single canvas allocation performed by `fileToCanvas`: the
trace at the error is exactly `[canvasAlloc]`. -/
theorem addWatermark_config_error_after_alloc (opts : WMOptions)
    (env : HostEnv) (hdoc : env.hasDocument = true)
    (hdec : env.decodeOk = true) (hctx : env.contextOk = true)
    (hinv : configInvalid opts = true) :
    ∃ e, isConfigError e = true ∧
      addWatermark .blobFile opts env = (.error e, [WMEvent.canvasAlloc]) := by
  obtain ⟨ty, mo, tx, src, el⟩ := opts
  obtain ⟨hd, dec, ctx, logo, enc⟩ := env
  simp only at hdoc hdec hctx
  subst hdoc hdec hctx
  by_cases ht : ty = "text"
  · subst ht
    have htext : optTruthy tx = false := by
      simpa [configInvalid] using hinv
    exact ⟨.missingText, rfl, by simp [addWatermark, htext]⟩
  · by_cases hi : ty = "image"
    · subst hi
      have hsrc : (optTruthy src || el) = false := by
        simpa [configInvalid] using hinv
      exact ⟨.missingImageSource, rfl, by simp [addWatermark, hsrc]⟩
    · have h1 : (ty == "text") = false := beq_eq_false_iff_ne.mpr ht
      have h2 : (ty == "image") = false := beq_eq_false_iff_ne.mpr hi
      exact ⟨.invalidType, rfl, by simp [addWatermark, h1, h2]⟩

/-- C1 amended witness: `addWatermark_config_error_after_alloc`
instantiated on the invalid type `"video"` in a healthy environment. -/
theorem addWatermark_config_error_after_alloc_witness :
    configInvalid ⟨"video", none, none, none, false⟩ = true ∧
    ∃ e, isConfigError e = true ∧
      addWatermark .blobFile ⟨"video", none, none, none, false⟩
        ⟨true, true, true, true, true⟩ =
        (.error e, [WMEvent.canvasAlloc]) :=
  ⟨by decide,
    addWatermark_config_error_after_alloc _ _ rfl rfl rfl (by decide)⟩

/-- C2 counterexample: a valid text request whose encode fails
(`canvas.toBlob` yields no blob) propagates the ExportFailure without
`releaseCanvas` ever running — the release event is absent from the
trace, because the source calls `releaseCanvas` only on the line after a
successful `await canvasToBlob(...)`, with no try/finally. -/
theorem addWatermark_release_skipped_cex :
    addWatermark .blobFile ⟨"text", none, some "© Test", none, false⟩
        ⟨true, true, true, true, false⟩ =
      (.error .exportFailure,
        [WMEvent.canvasAlloc, WMEvent.drawOp, WMEvent.encodeAttempt]) ∧
    WMEvent.canvasRelease ∉
      (addWatermark .blobFile ⟨"text", none, some "© Test", none, false⟩
        ⟨true, true, true, true, false⟩).2 :=
  ⟨rfl, by decide⟩

/-- C2 amended: on every input that reaches the encode step,
`releaseCanvas` runs exactly when the encode succeeds: a successful
encode is followed by the release, while a failed encode propagates the
ExportFailure with no release event in the trace. -/
theorem addWatermark_release_iff_encode_ok (file : FileInput)
    (opts : WMOptions) (env : HostEnv)
    (h : reachesEncode file opts env = true) :
    (env.encodeOk = true →
      addWatermark file opts env =
        (.ok (), [WMEvent.canvasAlloc, WMEvent.drawOp,
          WMEvent.encodeAttempt, WMEvent.canvasRelease])) ∧
    (env.encodeOk = false →
      addWatermark file opts env =
        (.error .exportFailure,
          [WMEvent.canvasAlloc, WMEvent.drawOp, WMEvent.encodeAttempt]) ∧
      WMEvent.canvasRelease ∉ (addWatermark file opts env).2) := by
  obtain ⟨ty, mo, tx, src, el⟩ := opts
  obtain ⟨hd, dec, ctx, logo, enc⟩ := env
  cases file with
  | nullFile => exact absurd h (by simp [reachesEncode])
  | nonBlobFile => exact absurd h (by simp [reachesEncode])
  | blobFile =>
    simp only [reachesEncode, Bool.and_eq_true, Bool.or_eq_true,
      beq_self_eq_true, true_and] at h
    obtain ⟨⟨⟨hhd, hdec⟩, hctx⟩, hbr⟩ := h
    have hhd' : hd = true := hhd
    have hdec' : dec = true := hdec
    have hctx' : ctx = true := hctx
    subst hhd' hdec' hctx'
    rcases hbr with ⟨hty, htx⟩ | ⟨⟨hty, hsrc⟩, hlogo⟩
    · have hty' : ty = "text" := by simpa using hty
      subst hty'
      have htx' : optTruthy tx = true := htx
      cases enc with
      | true =>
        refine ⟨fun _ => ?_, fun hfalse => by simp at hfalse⟩
        simp [addWatermark, finishEncode, htx']
      | false =>
        refine ⟨fun htrue => by simp at htrue, fun _ => ⟨?_, ?_⟩⟩
        · simp [addWatermark, finishEncode, htx']
        · simp [addWatermark, finishEncode, htx']
    · have hty' : ty = "image" := by simpa using hty
      subst hty'
      have hsrc' : (optTruthy src || el) = true := by rcases hsrc with h | h <;> simp [h]
      have hlogo' : logo = true := hlogo
      subst hlogo'
      cases enc with
      | true =>
        refine ⟨fun _ => ?_, fun hfalse => by simp at hfalse⟩
        simp [addWatermark, finishEncode, hsrc']
      | false =>
        refine ⟨fun htrue => by simp at htrue, fun _ => ⟨?_, ?_⟩⟩
        · simp [addWatermark, finishEncode, hsrc']
        · simp [addWatermark, finishEncode, hsrc']

/-- C2 amended witness: `addWatermark_release_iff_encode_ok` instantiated
on a valid text request with a failing encode. -/
theorem addWatermark_release_iff_encode_ok_witness :
    reachesEncode .blobFile ⟨"text", none, some "© Test", none, false⟩
        ⟨true, true, true, true, false⟩ = true ∧
    ((false = true →
      addWatermark .blobFile ⟨"text", none, some "© Test", none, false⟩
          ⟨true, true, true, true, false⟩ =
        (.ok (), [WMEvent.canvasAlloc, WMEvent.drawOp,
          WMEvent.encodeAttempt, WMEvent.canvasRelease])) ∧
     (false = false →
      addWatermark .blobFile ⟨"text", none, some "© Test", none, false⟩
          ⟨true, true, true, true, false⟩ =
        (.error .exportFailure,
          [WMEvent.canvasAlloc, WMEvent.drawOp, WMEvent.encodeAttempt]) ∧
      WMEvent.canvasRelease ∉
        (addWatermark .blobFile ⟨"text", none, some "© Test", none, false⟩
          ⟨true, true, true, true, false⟩).2)) := by
  refine ⟨by decide, ?_⟩
  exact addWatermark_release_iff_encode_ok .blobFile
    ⟨"text", none, some "© Test", none, false⟩
    ⟨true, true, true, true, false⟩ (by decide)

end Miconvert

namespace Miconvert

/-! ### `src/unnamed/part_001` — tiled renderers: tile pitch and grid loop

`drawTiledText` computes `tileW = maxLineWidth + tileSpacingX * multiplier`
and `tileH = lineH * lines.length + tileSpacingY * multiplier`, then runs

  for (let y = startY; y < endY; y += tileH)
    for (let x = startX; x < endX; x += tileW) ...

over bounds derived from `diagonal = Math.sqrt(w² + h²)`. `drawTiledImage`
computes `tileW = wmW + tileSpacingX * multiplier` and the same loop. No
validation of the pitch exists anywhere in either function. The loop is
modelled by the value of its control variable after `n` increments. -/

/-- `tileW` of `drawTiledText` (src/unnamed/part_001, line 68):
widest measured line plus responsive-scaled horizontal spacing. The
measured width is an input (the text-measurement collaborator returns
it). -/
def drawTiledText_tileW (maxLineWidth tileSpacingX canvasWidth : ℚ)
    (scale : Option ℚ) : ℚ :=
  maxLineWidth + tileSpacingX * getResponsiveMultiplier canvasWidth scale

/-- `tileW` of `drawTiledImage` (src/unnamed/part_001, line 150):
rendered logo width plus responsive-scaled horizontal spacing. -/
def drawTiledImage_tileW (wmW tileSpacingX canvasWidth : ℚ)
    (scale : Option ℚ) : ℚ :=
  wmW + tileSpacingX * getResponsiveMultiplier canvasWidth scale

/-- `diagonal` of the tiled grid bounds (src/unnamed/part_001, line 78). -/
noncomputable def tiledGridDiagonal (w h : ℝ) : ℝ :=
  Real.sqrt (w ^ 2 + h ^ 2)

/-- `startX = -diagonal / 2` (src/unnamed/part_001, line 79). -/
noncomputable def tiledGridStartX (w h : ℝ) : ℝ :=
  -(tiledGridDiagonal w h) / 2

/-- `endX = canvas.width + diagonal / 2` (src/unnamed/part_001, line 81). -/
noncomputable def tiledGridEndX (w h : ℝ) : ℝ :=
  w + tiledGridDiagonal w h / 2

/-- Value of the inner grid-loop control variable after `n` increments:
`x = startX + n·tileW`. -/
noncomputable def tiledGridX (w h tileW : ℝ) (n : ℕ) : ℝ :=
  tiledGridStartX w h + n * tileW

/-- C5 evidence: on an 800×600 canvas with a widest measured line of
100 px, `tileSpacingX = -1000` and no responsive scale, both tiled
renderers derive the non-positive pitch `tileW = -900`, yet the grid loop
is entered with `startX = -500 < endX = 1300` and its guard `x < endX`
remains true after every number of increments — the loop never terminates
and no ConfigurationError is ever raised, because neither `drawTiledText`
nor `drawTiledImage` validates the pitch. -/
theorem drawTiledText_nonpositive_pitch_loops :
    drawTiledText_tileW 100 (-1000) 800 none = -900 ∧
    drawTiledImage_tileW 100 (-1000) 800 none = -900 ∧
    drawTiledText_tileW 100 (-1000) 800 none ≤ 0 ∧
    tiledGridStartX 800 600 = -500 ∧
    tiledGridEndX 800 600 = 1300 ∧
    tiledGridStartX 800 600 < tiledGridEndX 800 600 ∧
    (∀ n : ℕ, tiledGridX 800 600 (-900) n < tiledGridEndX 800 600) := by
  have hdiag : tiledGridDiagonal 800 600 = 1000 := by
    have h1 : (800 : ℝ) ^ 2 + 600 ^ 2 = 1000 ^ 2 := by norm_num
    rw [tiledGridDiagonal, h1]
    exact Real.sqrt_sq (by norm_num)
  have hstart : tiledGridStartX 800 600 = -500 := by
    rw [tiledGridStartX, hdiag]; norm_num
  have hend : tiledGridEndX 800 600 = 1300 := by
    rw [tiledGridEndX, hdiag]; norm_num
  refine ⟨by norm_num [drawTiledText_tileW, getResponsiveMultiplier],
    by norm_num [drawTiledImage_tileW, getResponsiveMultiplier],
    by norm_num [drawTiledText_tileW, getResponsiveMultiplier],
    hstart, hend, by rw [hstart, hend]; norm_num, ?_⟩
  intro n
  rw [tiledGridX, hstart, hend]
  have hn : (n : ℝ) * (-900) ≤ 0 :=
    mul_nonpos_of_nonneg_of_nonpos (Nat.cast_nonneg n) (by norm_num)
  linarith

end Miconvert
